import Mathlib

/-!
Verification of the local-versioning core: a shallow embedding of the
FileWatcher (change scheduler), the GitService (history store) and the
main-process IPC handlers (folder update and repository migration), with
theorems settling the specification claims about them.
-/

set_option maxRecDepth 4000

/-! ## FileWatcher: commit strategies and constructor options -/

/-- The two commit strategies of FileWatcherOptions. -/
inductive CommitStrategy
  | onSave
  | periodic
deriving DecidableEq, Repr

/-- The options object passed to the FileWatcher constructor.  Optional
fields model properties that may be absent (undefined) in the source. -/
structure FileWatcherOptions where
  commitStrategy : Option CommitStrategy := none
  periodicInterval : Option Nat := none
  ignorePatterns : Option (List String) := none
  watchSubfolders : Option Bool := none
deriving DecidableEq, Repr

/-- The options record the constructor stores in this.options. -/
structure StoredOptions where
  commitStrategy : CommitStrategy
  periodicInterval : Nat
  ignorePatterns : List String
  watchSubfolders : Option Bool
deriving DecidableEq, Repr

/-- The defaultIgnorePatterns list built in the FileWatcher constructor. -/
def defaultIgnorePatterns : List String :=
  ["**/node_modules/**", "**/.git/**", "**/.DS_Store", "**/*.tmp",
   "**/*.log", "**/.local-versioning/**"]

/-- The FileWatcher constructor: the object literal assigned to
this.options fills commitStrategy, periodicInterval, ignorePatterns,
onCommit and onError, but omits the watchSubfolders key, so the stored
watchSubfolders is always absent (undefined), whatever was passed in. -/
def FileWatcher.mkOptions (options : FileWatcherOptions) : StoredOptions :=
  { commitStrategy := options.commitStrategy.getD .onSave
    periodicInterval := options.periodicInterval.getD 5
    ignorePatterns := options.ignorePatterns.getD defaultIgnorePatterns
    watchSubfolders := none }

/-- The watch depth computed in FileWatcher.start:
watchSubfolders !== false gives undefined (unlimited), otherwise 0. -/
def FileWatcher.watchDepth (opts : StoredOptions) : Option Nat :=
  if opts.watchSubfolders ≠ some false then none else some 0

/-- Split a character list at slashes (structural helper for path
segmentation). -/
def splitSlashAux : List Char → List Char → List (List Char)
  | [], acc => [acc.reverse]
  | c :: rest, acc =>
      if c = '/' then acc.reverse :: splitSlashAux rest []
      else splitSlashAux rest (c :: acc)

/-- The slash-separated segments of a relative path. -/
def pathSegs (p : String) : List String :=
  (splitSlashAux p.toList []).map (fun cs => String.mk cs)

/-- Whether a string ends with the given suffix. -/
def strEndsWith (s suffix : String) : Bool :=
  suffix.toList.isSuffixOf s.toList

/-- Whether the filesystem observer reports an event for a path at the
given relative nesting, per the chokidar depth option: none = unlimited
depth, some d = at most d directory levels below the watch root (depth 0
observes only direct children). -/
def chokidarObserves (depth : Option Nat) (relPath : String) : Bool :=
  match depth with
  | none => true
  | some d => (pathSegs relPath).length ≤ d + 1

/-! ## FileWatcher: pending-change scheduler state machine -/

/-- The mutable scheduler state of a FileWatcher: the pendingChanges set
(as a duplicate-free list) and the isCommitting guard flag. -/
structure SchedulerState where
  pending : List String
  isCommitting : Bool
deriving DecidableEq, Repr

/-- Set.add on the pendingChanges set. -/
def addPending (p : String) (l : List String) : List String :=
  if p ∈ l then l else l ++ [p]

/-- The observable steps of one FileWatcher instance: a filesystem event
dispatched to handleFileChange, a call of commitPendingChanges (from the
debounce timer or a periodic tick), and the completion of the awaited
git commit (the finally block of commitPendingChanges). -/
inductive WatchStep
  | fsEvent (path : String)
  | commitAttempt
  | commitFinish
deriving DecidableEq, Repr

/-- One step of the scheduler.  Returns the successor state and, when a
commit attempt passes the guard, the list of files handed to
GitService.commit (the snapshot of pendingChanges, which is cleared). -/
def schedStep (s : SchedulerState) : WatchStep → SchedulerState × Option (List String)
  | .fsEvent p => ({ s with pending := addPending p s.pending }, none)
  | .commitAttempt =>
      if s.isCommitting ∨ s.pending = [] then (s, none)
      else ({ pending := [], isCommitting := true }, some s.pending)
  | .commitFinish => ({ s with isCommitting := false }, none)

/-- Run a sequence of scheduler steps. -/
def schedRun (s : SchedulerState) : List WatchStep → SchedulerState
  | [] => s
  | step :: rest => schedRun (schedStep s step).1 rest

/-- The changed-path set of the first commit that actually starts during
a sequence of steps, if any commit starts at all. -/
def firstCommitOutput (s : SchedulerState) : List WatchStep → Option (List String)
  | [] => none
  | step :: rest =>
      match (schedStep s step).2 with
      | some files => some files
      | none => firstCommitOutput (schedStep s step).1 rest

theorem mem_addPending (p q : String) (l : List String) (h : p ∈ l) :
    p ∈ addPending q l := by
  unfold addPending
  split
  · exact h
  · exact List.mem_append_left _ h

theorem self_mem_addPending (p : String) (l : List String) :
    p ∈ addPending p l := by
  unfold addPending
  split
  · assumption
  · exact List.mem_append_right _ (List.mem_singleton.mpr rfl)

/-- Invariant: a path in the pending set stays pending until the first
commit attempt that passes the guard, and that attempt hands the whole
pending set (hence the path) to GitService.commit. -/
theorem pending_durable (p : String) (steps : List WatchStep) (s : SchedulerState)
    (hp : p ∈ s.pending) :
    (∀ fs, firstCommitOutput s steps = some fs → p ∈ fs) ∧
    (firstCommitOutput s steps = none → p ∈ (schedRun s steps).pending) := by
  induction steps generalizing s with
  | nil =>
      refine ⟨fun fs hfs => by simp [firstCommitOutput] at hfs, fun _ => ?_⟩
      simpa [schedRun] using hp
  | cons step rest ih =>
      cases step with
      | fsEvent q =>
          have hp' : p ∈ (schedStep s (.fsEvent q)).1.pending := by
            simpa [schedStep] using mem_addPending p q s.pending hp
          have := ih _ hp'
          constructor
          · intro fs hfs
            have : firstCommitOutput (schedStep s (.fsEvent q)).1 rest = some fs := by
              simpa [firstCommitOutput, schedStep] using hfs
            exact (ih _ hp').1 fs this
          · intro hnone
            have : firstCommitOutput (schedStep s (.fsEvent q)).1 rest = none := by
              simpa [firstCommitOutput, schedStep] using hnone
            simpa [schedRun, schedStep] using (ih _ hp').2 this
      | commitAttempt =>
          by_cases hg : s.isCommitting ∨ s.pending = []
          · have hstep : schedStep s .commitAttempt = (s, none) := by
              simp [schedStep, hg]
            constructor
            · intro fs hfs
              have : firstCommitOutput s rest = some fs := by
                simpa [firstCommitOutput, hstep] using hfs
              exact (ih _ hp).1 fs this
            · intro hnone
              have : firstCommitOutput s rest = none := by
                simpa [firstCommitOutput, hstep] using hnone
              simpa [schedRun, hstep] using (ih _ hp).2 this
          · have hstep : schedStep s .commitAttempt
                = (⟨[], true⟩, some s.pending) := by
              simp [schedStep, hg]
            constructor
            · intro fs hfs
              have : some s.pending = some fs := by
                simpa [firstCommitOutput, hstep] using hfs
              cases this
              exact hp
            · intro hnone
              exfalso
              simp [firstCommitOutput, hstep] at hnone
      | commitFinish =>
          have hp' : p ∈ (schedStep s .commitFinish).1.pending := by
            simpa [schedStep] using hp
          constructor
          · intro fs hfs
            have : firstCommitOutput (schedStep s .commitFinish).1 rest = some fs := by
              simpa [firstCommitOutput, schedStep] using hfs
            exact (ih _ hp').1 fs this
          · intro hnone
            have : firstCommitOutput (schedStep s .commitFinish).1 rest = none := by
              simpa [firstCommitOutput, schedStep] using hnone
            simpa [schedRun, schedStep] using (ih _ hp').2 this

/-- C1: a filesystem change event that arrives while a commit is in
flight (isCommitting = true) is accumulated in the pending set, survives
the in-flight commit, and its path is in the changed-path set of the
next commit that starts; if no further commit ever starts, the path is
still pending (no event is ever lost). -/
theorem c1_pending_set_durability (s : SchedulerState) (p : String)
    (steps : List WatchStep) (hc : s.isCommitting = true) :
    (∀ fs, firstCommitOutput (schedStep s (.fsEvent p)).1 steps = some fs → p ∈ fs) ∧
    (firstCommitOutput (schedStep s (.fsEvent p)).1 steps = none →
      p ∈ (schedRun (schedStep s (.fsEvent p)).1 steps).pending) := by
  have hp : p ∈ (schedStep s (.fsEvent p)).1.pending := by
    simpa [schedStep] using self_mem_addPending p s.pending
  exact pending_durable p steps _ hp

/-- Witness for C1: with a commit in flight over pending file b.txt, an
event on a.txt arriving mid-commit is contained in the output of the
next successful commit attempt. -/
theorem c1_pending_set_durability_witness :
    firstCommitOutput (schedStep ⟨["b.txt"], true⟩ (.fsEvent "a.txt")).1
        [.commitFinish, .commitAttempt] = some ["b.txt", "a.txt"] ∧
    "a.txt" ∈ ["b.txt", "a.txt"] := by
  refine ⟨by decide, ?_⟩
  exact (c1_pending_set_durability ⟨["b.txt"], true⟩ "a.txt"
    [.commitFinish, .commitAttempt] rfl).1 ["b.txt", "a.txt"] (by decide)

/-- The constructor input of the C2 scenario: watchSubfolders false. -/
def noSubtreeOptions : FileWatcherOptions :=
  { commitStrategy := some CommitStrategy.onSave
    watchSubfolders := some false }

/-- C2 (divergence shown): constructing a FileWatcher with
watchSubfolders explicitly false nevertheless stores no watchSubfolders
value (the constructor drops the field), so the computed watch depth is
unlimited and an event on a file nested two directory levels below the
watch root is observed and enters the pending change set. -/
theorem c2_watch_subtree_dropped :
    (FileWatcher.mkOptions noSubtreeOptions).watchSubfolders = none ∧
    FileWatcher.watchDepth (FileWatcher.mkOptions noSubtreeOptions) = none ∧
    chokidarObserves (FileWatcher.watchDepth (FileWatcher.mkOptions noSubtreeOptions))
        "sub/dir/deep.txt" = true ∧
    (schedStep ⟨[], false⟩ (.fsEvent "sub/dir/deep.txt")).1.pending
        = ["sub/dir/deep.txt"] := by
  refine ⟨rfl, rfl, rfl, by decide⟩

/-! ## GitService: history store model

The store is a linear chain of commits, newest first, each carrying the
full file tree it snapshots.  The working directory is a flat list of
relative paths with contents. -/

/-- A file tree: association of relative path to content. -/
abbrev FTree := List (String × String)

/-- Path lookup in a tree (first match). -/
def lookupT : FTree → String → Option String
  | [], _ => none
  | e :: rest, p => if e.1 = p then some e.2 else lookupT rest p

/-- The paths of a tree. -/
def pathsOf (t : FTree) : List String := t.map Prod.fst

/-- The base filename of a relative path. -/
def baseName (p : String) : String := (pathSegs p).getLastD p

/-- One commit as stored by git: hash, message, author date and the
snapshot tree it records. -/
structure GitCommit where
  hash : String
  message : String
  date : Nat
  tree : FTree
deriving DecidableEq, Repr

/-- The state a GitService instance operates on: whether the git
directory exists, the working-directory files (the dot-git entry that
git places in the working directory is tracked by gitDirExists, not
listed here), the commit chain newest first, and a clock supplying
timestamps. -/
structure GitState where
  gitDirExists : Bool
  workFiles : FTree
  commits : List GitCommit
  clock : Nat
deriving DecidableEq, Repr

namespace GitService

/-- The default ignore list written to .gitignore on initialization. -/
def defaultGitignore : String := ".DS_Store\nnode_modules/\n.git/\n*.tmp\n*.log"

/-- Whether a path matches one of the five default ignore patterns
(.DS_Store, node_modules/, .git/, star-dot-tmp, star-dot-log). -/
def ignoredByDefault (p : String) : Bool :=
  baseName p = ".DS_Store" ∨ (pathSegs p).contains "node_modules"
    ∨ (pathSegs p).contains ".git"
    ∨ strEndsWith (baseName p) ".tmp" ∨ strEndsWith (baseName p) ".log"

/-- The tree recorded by the most recent commit (empty before any
commit exists). -/
def headTree (st : GitState) : FTree :=
  match st.commits with
  | [] => []
  | c :: _ => c.tree

/-- Whether a path differs between the working directory and the most
recent snapshot (modified, newly created, or deleted from disk). -/
def differsAt (st : GitState) (p : String) : Bool :=
  lookupT st.workFiles p ≠ lookupT (headTree st) p

/-- The changed paths reported by git status: every non-ignored path of
the working directory or the head snapshot whose content differs. -/
def statusFiles (st : GitState) : List String :=
  ((pathsOf st.workFiles ++ pathsOf (headTree st)).dedup).filter
    (fun p => differsAt st p ∧ ignoredByDefault p = false)

/-- Staging the whole tree (git add dot): every status change. -/
def stageAll (st : GitState) : List String := statusFiles st

/-- Staging named paths (git add of specific files): the named paths
that actually differ from the head snapshot; unchanged paths stage
nothing.  A named path unknown to both the disk and the head snapshot
makes git add fail (pathspec error), checked separately in commit. -/
def stagePaths (st : GitState) (paths : List String) : List String :=
  paths.filter (fun p => differsAt st p)

/-- The tree of a new commit: the head snapshot with every staged path
replaced by its on-disk content, or dropped when deleted from disk. -/
def applyStaged (st : GitState) (staged : List String) : FTree :=
  ((headTree st).filter (fun e => e.1 ∉ staged)) ++
    staged.filterMap (fun p => (lookupT st.workFiles p).map (fun c => (p, c)))

/-- A fresh commit hash (opaque in the model; unique per chain length). -/
def freshHash (st : GitState) : String := "h" ++ toString st.commits.length

/-- The top-level entries of the working directory, as readdirSync
reports them (first path segments, deduplicated). -/
def topLevelEntries (files : FTree) : List String :=
  (files.map (fun e => (pathSegs e.1).headD e.1)).dedup

/-- Model of GitService.initialize (named initializeRepo here).  When
the git directory is missing it is created (in both the default and the
separate-git-dir layout a dot-git entry appears in the working
directory), a default .gitignore is written if absent, the directory
entries are listed, and if more than one entry is present everything is
staged; a non-empty staging then produces the initial commit. -/
def initializeRepo (st : GitState) : GitState :=
  if st.gitDirExists then st
  else
    let st1 : GitState := { st with gitDirExists := true }
    let st2 : GitState :=
      if (lookupT st1.workFiles ".gitignore").isSome then st1
      else { st1 with workFiles := st1.workFiles ++ [(".gitignore", defaultGitignore)] }
    let files : List String := topLevelEntries st2.workFiles ++ [".git"]
    if files.length > 1 then
      let staged := stageAll st2
      if staged.length > 0 then
        { st2 with
            commits := [{ hash := freshHash st2,
                          message := "Initial commit by Local Versioning",
                          date := st2.clock,
                          tree := applyStaged st2 staged }] ++ st2.commits,
            clock := st2.clock + 1 }
      else st2
    else st2

/-- Model of GitService.commit.  Empty input returns the empty hash at
once; a missing git directory triggers lazy initialization; with no
prior commit the whole tree is staged, otherwise only the named paths;
when the resulting status shows nothing at all the empty hash is
returned; an empty staging with other pending changes makes the
underlying git commit fail; otherwise a commit is appended. -/
def commit (st : GitState) (changedFiles : List String) :
    Except String (String × GitState) :=
  if changedFiles = [] then .ok ("", st)
  else
    let st := if st.gitDirExists then st else initializeRepo st
    let hasCommits : Bool := st.commits ≠ []
    if hasCommits ∧ changedFiles.any (fun p =>
        (lookupT st.workFiles p).isNone ∧ (lookupT (headTree st) p).isNone) then
      .error "Failed to commit changes: pathspec did not match any files"
    else
      let staged := if hasCommits then stagePaths st changedFiles else stageAll st
      let files := statusFiles st
      if staged = [] ∧ files = [] then .ok ("", st)
      else if staged = [] then
        .error "Failed to commit changes: no changes added to commit"
      else
        let message :=
          if hasCommits then
            "Auto-commit: " ++ toString st.clock ++ " - [" ++
              String.intercalate ", " (changedFiles.map baseName) ++ "]"
          else "Initial commit: " ++ toString st.clock
        let c : GitCommit := { hash := freshHash st, message := message,
                               date := st.clock, tree := applyStaged st staged }
        .ok (c.hash, { st with commits := c :: st.commits, clock := st.clock + 1 })

/-- One entry of the getCommits result. -/
structure CommitInfo where
  hash : String
  message : String
  date : Nat
  changedFiles : List String
deriving DecidableEq, Repr

/-- The changed files of the commit at position i of the chain: the
diff against the parent commit, or the whole snapshot for the root
commit (git show with name-only; git diff against the parent gives the
same set for non-root commits). -/
def diffTrees (parent child : FTree) : List String :=
  ((pathsOf parent ++ pathsOf child).dedup).filter
    (fun p => lookupT parent p ≠ lookupT child p)

def changedFilesAt (commits : List GitCommit) (i : Nat) : List String :=
  match commits.get? i, commits.get? (i + 1) with
  | some c, some parent => diffTrees parent.tree c.tree
  | some c, none => pathsOf c.tree
  | none, _ => []

/-- Model of GitService.getCommits: the newest commits up to the limit,
each with its changed-file set computed against its parent in the full
chain (an empty chain gives an empty list, not an error). -/
def getCommits (st : GitState) (limit : Nat) : List CommitInfo :=
  (st.commits.take limit).enum.map (fun ic =>
    { hash := ic.2.hash, message := ic.2.message, date := ic.2.date,
      changedFiles := changedFilesAt st.commits ic.1 })

/-- Model of GitService.getFileContent: show the path at the commit;
fails when the commit is unknown or the path is absent from its tree. -/
def getFileContent (st : GitState) (commitHash filePath : String) :
    Except String String :=
  match st.commits.find? (fun c => c.hash = commitHash) with
  | none => .error ("Failed to get file content: unknown revision " ++ commitHash)
  | some c =>
      match lookupT c.tree filePath with
      | some content => .ok content
      | none => .error ("Failed to get file content: path not found " ++ filePath)

/-- Index of a hash in a list, or none (indexOf returning -1). -/
def idxOf? : List String → String → Option Nat
  | [], _ => none
  | h :: t, x => if h = x then some 0 else (idxOf? t x).map (· + 1)

/-- The fallback loop of getFileContentSafe: probe each progressively
older commit hash until the file content is found. -/
def probeOlder (st : GitState) (filePath : String) :
    List String → Except String String
  | [] => .error "Failed to find file in history: File not found in any commit in history"
  | h :: rest =>
      match getFileContent st h filePath with
      | .ok content => .ok content
      | .error _ => probeOlder st filePath rest

/-- The ordered list (newest first) of hashes of commits, among the
newest 100, whose changed files contain the path — the commitsWithFile
list built inside getFileContentSafe. -/
def touchingHashes (st : GitState) (filePath : String) : List String :=
  ((getCommits st 100).filter
    (fun c => c.changedFiles.contains filePath)).map (fun c => c.hash)

/-- Model of GitService.getFileContentSafe: direct lookup first; on
failure, collect the hashes of the newest 100 commits whose changed
files contain the path, locate the requested commit in that list, and
probe the subsequent (older) entries; failure when the commit is not in
the list or no probe succeeds. -/
def getFileContentSafe (st : GitState) (commitHash filePath : String) :
    Except String String :=
  match getFileContent st commitHash filePath with
  | .ok content => .ok content
  | .error _ =>
      match idxOf? (touchingHashes st filePath) commitHash with
      | none => .error ("Failed to find file in history: Commit " ++ commitHash
          ++ " not found in file history")
      | some idx => probeOlder st filePath ((touchingHashes st filePath).drop (idx + 1))

/-- The result record of getDiff. -/
structure DiffResult where
  oldContent : String
  newContent : String
  fileName : String
  oldCommit : String
  newCommit : String
deriving DecidableEq, Repr

/-- Model of GitService.getDiff: resilient read at the old commit; the
new side is the resilient read at the new commit when given, otherwise
the live on-disk content, or the empty string when the file is absent
from disk. -/
def getDiff (st : GitState) (filePath oldCommit : String)
    (newCommit : Option String) : Except String DiffResult := do
  let oldContent ← getFileContentSafe st oldCommit filePath
  let newContent ←
    match newCommit with
    | some nc => getFileContentSafe st nc filePath
    | none =>
        pure (match lookupT st.workFiles filePath with
              | some content => content
              | none => "")
  pure { oldContent := oldContent, newContent := newContent,
         fileName := baseName filePath, oldCommit := oldCommit,
         newCommit := newCommit.getD "current" }

end GitService

/-- An initially empty working folder about to be initialized: no git
directory, no files, no commits. -/
def emptyFolderState : GitState :=
  { gitDirExists := false, workFiles := [], commits := [], clock := 0 }

/-- C3 (divergence shown): initializing the store over a working tree
with no tracked files does create an initial commit.  The directory
listing taken before the initial-commit decision contains both the
dot-git entry and the just-created .gitignore, so the more-than-one
entry check passes, everything is staged, the .gitignore is staged, and
an initial commit recording exactly the .gitignore is created: the
ancestry chain has length one, not zero. -/
theorem c3_empty_tree_initial_commit :
    (GitService.initializeRepo emptyFolderState).commits.length = 1 ∧
    (GitService.initializeRepo emptyFolderState).commits.map
        (fun c => c.message) = ["Initial commit by Local Versioning"] ∧
    (GitService.initializeRepo emptyFolderState).commits.map
        (fun c => pathsOf c.tree) = [[".gitignore"]] := by
  refine ⟨by decide, by decide, by decide⟩

/-- Whether an Except value is an error. -/
def exceptIsError {α : Type} : Except String α → Bool
  | .error _ => true
  | .ok _ => false

/-- C9: committing an empty changed-path set returns the empty result
at once, with the store unchanged and no error raised; and when staging
the named paths yields nothing to record (the status after the add
shows no staged path and no pending change), commit likewise returns
the empty result with the store unchanged, not an error. -/
theorem c9_empty_change_no_op (st : GitState) (paths : List String)
    (hgit : st.gitDirExists = true)
    (hvalid : ∀ p ∈ paths, (lookupT st.workFiles p).isSome = true ∨
      (lookupT (GitService.headTree st) p).isSome = true)
    (hc : st.commits ≠ [])
    (hstaged : GitService.stagePaths st paths = [])
    (hfiles : GitService.statusFiles st = []) :
    GitService.commit st [] = .ok ("", st) ∧
    GitService.commit st paths = .ok ("", st) := by
  constructor
  · simp [GitService.commit]
  · by_cases hp : paths = []
    · subst hp
      simp [GitService.commit]
    · simp [GitService.commit, hp, hgit, hc, hstaged, hfiles]
      intro x hx h1
      rcases hvalid x hx with h | h
      · simp [h1] at h
      · simpa [Option.isSome_iff_ne_none] using h

/-- A store in sync with its working directory: one commit recording
a.txt, and a.txt unchanged on disk. -/
def syncedState : GitState :=
  { gitDirExists := true
    workFiles := [("a.txt", "v")]
    commits := [{ hash := "h0", message := "Initial commit: 0", date := 0,
                  tree := [("a.txt", "v")] }]
    clock := 1 }

/-- Witness for C9: the empty changed-path set is a no-op, and staging
the unchanged path a.txt records nothing and is likewise a no-op. -/
theorem c9_empty_change_no_op_witness :
    GitService.commit syncedState [] = .ok ("", syncedState) ∧
    GitService.commit syncedState ["a.txt"] = .ok ("", syncedState) :=
  c9_empty_change_no_op syncedState ["a.txt"] (by decide) (by decide)
    (by decide) (by decide) (by decide)

/-- A path whose lookup succeeds is among the paths of the tree. -/
theorem mem_pathsOf_of_lookupT {t : FTree} {f : String}
    (h : (lookupT t f).isSome = true) : f ∈ pathsOf t := by
  induction t with
  | nil => simp [lookupT] at h
  | cons e rest ih =>
      by_cases he : e.1 = f
      · simp [pathsOf, he]
      · simp [lookupT, he] at h
        simpa [pathsOf] using Or.inr (by simpa [pathsOf] using ih h)

/-- A staged path that is present on disk appears in the tree recorded
by applyStaged. -/
theorem mem_pathsOf_applyStaged (st : GitState) (staged : List String)
    (f : String) (hf : f ∈ staged) (hd : (lookupT st.workFiles f).isSome = true) :
    f ∈ pathsOf (GitService.applyStaged st staged) := by
  obtain ⟨c, hc⟩ := Option.isSome_iff_exists.mp hd
  have : (f, c) ∈ staged.filterMap
      (fun p => (lookupT st.workFiles p).map (fun c => (p, c))) :=
    List.mem_filterMap.mpr ⟨f, hf, by rw [hc]; rfl⟩
  unfold GitService.applyStaged pathsOf
  rw [List.map_append]
  exact List.mem_append_right _ (List.mem_map.mpr ⟨(f, c), this, rfl⟩)

/-- C7: on a store whose ancestry chain is empty, a commit call with a
non-empty changed-path set stages the entire working tree: it succeeds,
produces a single commit, and the changed-path set that getCommits
reports for that commit contains every non-ignored file of the working
directory — the pre-existing files together with the triggering one. -/
theorem c7_first_commit_stages_tree (st : GitState) (paths : List String)
    (hgit : st.gitDirExists = true)
    (hempty : st.commits = [])
    (hne : paths ≠ [])
    (hstage : GitService.stageAll st ≠ []) :
    ∃ st2, GitService.commit st paths = .ok (GitService.freshHash st, st2) ∧
      st2.commits.length = 1 ∧
      (GitService.getCommits st2 50).length = 1 ∧
      ∀ info ∈ GitService.getCommits st2 50,
        ∀ f, (lookupT st.workFiles f).isSome = true →
          GitService.ignoredByDefault f = false → f ∈ info.changedFiles := by
  have hnc : ¬ (st.commits ≠ []) := by simp [hempty]
  have hsf : GitService.statusFiles st ≠ [] := by
    simpa [GitService.stageAll] using hstage
  refine ⟨{ st with
      commits := [{ hash := GitService.freshHash st,
                    message := "Initial commit: " ++ toString st.clock,
                    date := st.clock,
                    tree := GitService.applyStaged st (GitService.stageAll st) }],
      clock := st.clock + 1 }, ?_, ?_, ?_, ?_⟩
  · simp [GitService.commit, hne, hgit, hnc, hempty, hsf, GitService.stageAll]
  · rfl
  · rfl
  · intro info hinfo f hdisk hign
    have hmem : f ∈ GitService.stageAll st := by
      unfold GitService.stageAll GitService.statusFiles
      rw [List.mem_filter]
      refine ⟨List.mem_dedup.mpr
        (List.mem_append_left _ (mem_pathsOf_of_lookupT hdisk)), ?_⟩
      have hdiff : GitService.differsAt st f = true := by
        unfold GitService.differsAt GitService.headTree
        rw [hempty]
        obtain ⟨c, hc⟩ := Option.isSome_iff_exists.mp hdisk
        simp [hc, lookupT]
      simp [hdiff, hign]
    have htree : f ∈ pathsOf (GitService.applyStaged st (GitService.stageAll st)) :=
      mem_pathsOf_applyStaged st _ f hmem hdisk
    have : info.changedFiles
        = pathsOf (GitService.applyStaged st (GitService.stageAll st)) := by
      simp [GitService.getCommits, GitService.changedFilesAt] at hinfo
      simp [hinfo]
    rwa [this]

/-- A folder with three pre-existing untracked files and no commit yet. -/
def preTrackingState : GitState :=
  { gitDirExists := true
    workFiles := [("one.txt", "1"), ("two.txt", "2"), ("three.txt", "3")]
    commits := []
    clock := 0 }

/-- Witness for C7: with three pre-existing files, committing the
single changed path two.txt produces one commit whose changed-path set
contains every one of the three files. -/
theorem c7_first_commit_stages_tree_witness :
    preTrackingState.commits = [] ∧ GitService.stageAll preTrackingState ≠ [] ∧
    (∃ st2, GitService.commit preTrackingState ["two.txt"]
        = .ok (GitService.freshHash preTrackingState, st2) ∧
      st2.commits.length = 1 ∧
      (GitService.getCommits st2 50).length = 1 ∧
      ∀ info ∈ GitService.getCommits st2 50,
        ∀ f, (lookupT preTrackingState.workFiles f).isSome = true →
          GitService.ignoredByDefault f = false → f ∈ info.changedFiles) :=
  ⟨rfl, by decide,
    c7_first_commit_stages_tree preTrackingState ["two.txt"] (by decide) rfl
      (by decide) (by decide)⟩

/-- If every probed hash fails the direct lookup, the fallback loop of
the resilient read fails. -/
theorem probeOlder_all_error (st : GitState) (filePath : String)
    (l : List String)
    (h : ∀ x ∈ l, exceptIsError (GitService.getFileContent st x filePath) = true) :
    exceptIsError (GitService.probeOlder st filePath l) = true := by
  induction l with
  | nil => rfl
  | cons x rest ih =>
      have hx := h x (List.mem_cons_self x rest)
      unfold GitService.probeOlder
      cases hgc : GitService.getFileContent st x filePath with
      | ok c => rw [hgc] at hx; simp [exceptIsError] at hx
      | error e =>
          exact ih (fun y hy => h y (List.mem_cons_of_mem x hy))

/-- C4: for a file created in commit A, modified in commit B and
deleted in commit C — so that the touching-commit list of the newest
100 commits is [C, B, A], the direct lookup at C fails, and the content
as of B is b — the resilient read at C returns b, the content recorded
at B; and getDiff at C with no new ref, the file being absent from
disk, reports oldContent b and newContent empty. -/
theorem c4_resilient_read (st : GitState) (hC hB hA p b : String)
    (hdel : exceptIsError (GitService.getFileContent st hC p) = true)
    (htouch : GitService.touchingHashes st p = [hC, hB, hA])
    (hatB : GitService.getFileContent st hB p = .ok b)
    (hdisk : lookupT st.workFiles p = none) :
    GitService.getFileContentSafe st hC p = .ok b ∧
    GitService.getDiff st p hC none = .ok
      { oldContent := b, newContent := "", fileName := baseName p,
        oldCommit := hC, newCommit := "current" } := by
  have hsafe : GitService.getFileContentSafe st hC p = .ok b := by
    unfold GitService.getFileContentSafe
    cases hgc : GitService.getFileContent st hC p with
    | ok c => rw [hgc] at hdel; simp [exceptIsError] at hdel
    | error e =>
        rw [htouch]
        simp [GitService.idxOf?, GitService.probeOlder, hatB]
  refine ⟨hsafe, ?_⟩
  unfold GitService.getDiff
  rw [hsafe, hdisk]
  rfl

/-- The C4 scenario store: p.txt created in commit a with content v1,
rewritten in commit b with content v2, deleted in commit c; p.txt also
absent from the working directory. -/
def deletionState : GitState :=
  { gitDirExists := true
    workFiles := [("other.txt", "x")]
    commits :=
      [{ hash := "c", message := "del", date := 2,
         tree := [("other.txt", "x")] },
       { hash := "b", message := "mod", date := 1,
         tree := [("p.txt", "v2"), ("other.txt", "x")] },
       { hash := "a", message := "add", date := 0,
         tree := [("p.txt", "v1"), ("other.txt", "x")] }]
    clock := 3 }

/-- Witness for C4: on the concrete create-modify-delete store the
resilient read at the deletion commit returns the content of the
modification commit, and the diff against the live (deleted) file shows
empty new content. -/
theorem c4_resilient_read_witness :
    GitService.touchingHashes deletionState "p.txt" = ["c", "b", "a"] ∧
    GitService.getFileContentSafe deletionState "c" "p.txt" = .ok "v2" ∧
    GitService.getDiff deletionState "p.txt" "c" none = .ok
      { oldContent := "v2", newContent := "", fileName := "p.txt",
        oldCommit := "c", newCommit := "current" } := by
  have h := c4_resilient_read deletionState "c" "b" "a" "p.txt" "v2"
    (by decide) (by decide) (by rfl) (by decide)
  exact ⟨by decide, h.1, h.2⟩

/-- C10: the deletion-fallback search of the resilient read is bounded
to the newest 100 commits.  When the direct lookup at the requested
commit fails, then — even when some commit of the store does still
contain the content — the resilient read fails with an error whenever
the requested commit is not in the touching-commit list drawn from the
newest 100 commits, or every older entry of that list also lacks the
content. -/
theorem c10_fallback_window_bounded (st : GitState) (r p hOld v : String)
    (hdirect : exceptIsError (GitService.getFileContent st r p) = true)
    (hwindow : GitService.idxOf? (GitService.touchingHashes st p) r = none ∨
      (∃ i, GitService.idxOf? (GitService.touchingHashes st p) r = some i ∧
        ∀ x ∈ (GitService.touchingHashes st p).drop (i + 1),
          exceptIsError (GitService.getFileContent st x p) = true))
    (hold : GitService.getFileContent st hOld p = .ok v) :
    exceptIsError (GitService.getFileContentSafe st r p) = true := by
  unfold GitService.getFileContentSafe
  cases hgc : GitService.getFileContent st r p with
  | ok c => rw [hgc] at hdirect; simp [exceptIsError] at hdirect
  | error e =>
      rcases hwindow with hnone | ⟨i, hidx, hall⟩
      · rw [hnone]
        rfl
      · rw [hidx]
        exact probeOlder_all_error st p _ hall

/-- The 99 indistinguishable filler commits of the C10 scenario. -/
def fillerCommits : List GitCommit :=
  (List.range 99).map (fun i =>
    { hash := "f" ++ toString i, message := "auto", date := 102 - i,
      tree := [("q.txt", "x")] })

/-- The C10 scenario store: 101 commits; the newest 99 touch nothing,
commit d (position 100 in the chain) deletes p.txt, and only the root
commit r0 (position 101, outside the newest-100 window) contains
p.txt. -/
def deepHistoryState : GitState :=
  { gitDirExists := true
    workFiles := [("q.txt", "x")]
    commits := fillerCommits ++
      [{ hash := "d", message := "del", date := 1, tree := [("q.txt", "x")] },
       { hash := "r0", message := "root", date := 0,
         tree := [("p.txt", "old"), ("q.txt", "x")] }]
    clock := 200 }

/-- Witness for C10: in the 101-commit store the root commit still
holds p.txt, yet the resilient read at the deletion commit d fails,
because the touching list drawn from the newest 100 commits is just [d]
and the root commit lies outside that window. -/
theorem c10_fallback_window_bounded_witness :
    GitService.getFileContent deepHistoryState "r0" "p.txt" = .ok "old" ∧
    GitService.touchingHashes deepHistoryState "p.txt" = ["d"] ∧
    exceptIsError (GitService.getFileContentSafe deepHistoryState "d" "p.txt")
      = true := by
  refine ⟨by rfl, by decide, ?_⟩
  exact c10_fallback_window_bounded deepHistoryState "d" "p.txt" "r0" "old"
    (by decide) (Or.inr ⟨0, by decide, by decide⟩) (by rfl)

/-! ## Main process: folder configuration, watcher lifecycle and the
update-folder and migrate-git-repository IPC handlers -/

/-- The WatchedFolder configuration record. -/
structure FolderConfig where
  id : String
  path : String
  name : String
  commitStrategy : CommitStrategy
  periodicInterval : Option Nat
  ignorePatterns : List String
  isActive : Bool
  watchSubfolders : Bool
  customGitPath : Option String
deriving DecidableEq, Repr

/-- A history store on disk, reduced to what the migration handler
inspects: the commit dates, newest first. -/
structure StoreData where
  commits : List Nat
deriving DecidableEq, Repr

/-- The filesystem as the migration handler sees it: which directory
location holds which store. -/
def StoreFS := String → Option StoreData

/-- The main-process state for one folder: its configuration, the
on-disk stores, the running watcher of the fileWatchers map (carrying
the options it was constructed with), and the wall clock used for
backup suffixes. -/
structure MainState where
  folder : FolderConfig
  stores : StoreFS
  watcherOptions : Option StoredOptions
  now : Nat

/-- The options startWatchingFolder passes to the FileWatcher
constructor, as stored by that constructor. -/
def watcherOptionsFor (f : FolderConfig) : StoredOptions :=
  FileWatcher.mkOptions
    { commitStrategy := some f.commitStrategy
      periodicInterval := f.periodicInterval
      ignorePatterns := some f.ignorePatterns
      watchSubfolders := some f.watchSubfolders }

/-- startWatchingFolder: no-op when a watcher is already registered;
otherwise builds a watcher from the current folder configuration and
marks the folder active.  (The store initialization performed by the
started watcher is a no-op for the states considered here, where the
configured store already exists.) -/
def startWatchingFolder (st : MainState) : MainState :=
  if st.watcherOptions.isSome then st
  else { st with watcherOptions := some (watcherOptionsFor st.folder),
                 folder := { st.folder with isActive := true } }

/-- stopWatchingFolder: drops the watcher and marks the folder
inactive. -/
def stopWatchingFolder (st : MainState) : MainState :=
  { st with watcherOptions := none,
            folder := { st.folder with isActive := false } }

/-- The updates payload of the update-folder call, restricted to the
fields the claim is about. -/
structure FolderUpdates where
  commitStrategy : Option CommitStrategy := none
  periodicInterval : Option Nat := none
deriving DecidableEq, Repr

/-- ConfigService.updateFolder: merge the updates into the record. -/
def applyFolderUpdates (f : FolderConfig) (u : FolderUpdates) : FolderConfig :=
  { f with
      commitStrategy := u.commitStrategy.getD f.commitStrategy
      periodicInterval :=
        match u.periodicInterval with
        | some n => some n
        | none => f.periodicInterval }

/-- The update-folder IPC handler: apply the updates, then restart the
watcher only when the updates carry a commitStrategy and a watcher is
registered. -/
def updateFolderHandler (st : MainState) (u : FolderUpdates) : MainState :=
  let st1 : MainState := { st with folder := applyFolderUpdates st.folder u }
  if u.commitStrategy.isSome ∧ st1.watcherOptions.isSome then
    startWatchingFolder (stopWatchingFolder st1)
  else st1

/-- The folder of the C6 scenario: periodic strategy every 5 minutes. -/
def periodicFolder : FolderConfig :=
  { id := "folder-1", path := "/work", name := "work",
    commitStrategy := .periodic, periodicInterval := some 5,
    ignorePatterns := [], isActive := true, watchSubfolders := true,
    customGitPath := none }

/-- The C6 scenario state: the periodic folder with its scheduler
active, built from the current configuration. -/
def periodicState : MainState :=
  { folder := periodicFolder
    stores := fun _ => none
    watcherOptions := some (watcherOptionsFor periodicFolder)
    now := 0 }

/-- C6 counterexample: updating only periodicIntervalMinutes (5 to 10)
on a folder with an active scheduler does not restart the scheduler:
the configuration now reads 10, but the registered watcher still
carries the old options with interval 5 (a restart would have rebuilt
it with interval 10). -/
theorem c6_interval_update_no_restart :
    (updateFolderHandler periodicState { periodicInterval := some 10 }).folder.periodicInterval
      = some 10 ∧
    (updateFolderHandler periodicState { periodicInterval := some 10 }).watcherOptions
      = some (watcherOptionsFor periodicFolder) ∧
    (watcherOptionsFor periodicFolder).periodicInterval = 5 ∧
    (watcherOptionsFor (applyFolderUpdates periodicFolder
        { periodicInterval := some 10 })).periodicInterval = 10 :=
  ⟨rfl, rfl, rfl, rfl⟩

/-- C6 as amended: with an active scheduler, an update carrying a
commitStrategy restarts the scheduler with the updated configuration
(so the new policy is in effect); an update carrying no commitStrategy
— in particular a periodicIntervalMinutes-only change — leaves the
running scheduler untouched. -/
theorem c6_strategy_update_restarts (st : MainState) (u : FolderUpdates)
    (hs : u.commitStrategy.isSome = true)
    (hw : st.watcherOptions.isSome = true) :
    (updateFolderHandler st u).watcherOptions
      = some (watcherOptionsFor (applyFolderUpdates st.folder u)) ∧
    ∀ u2 : FolderUpdates, u2.commitStrategy = none →
      (updateFolderHandler st u2).watcherOptions = st.watcherOptions := by
  constructor
  · simp [updateFolderHandler, startWatchingFolder, stopWatchingFolder, hs, hw,
      watcherOptionsFor]
  · intro u2 hu2
    simp [updateFolderHandler, hu2]

/-- Witness for C6 (amended): switching the periodic folder to on-save
restarts its scheduler with the new configuration, and an empty update
leaves the scheduler alone. -/
theorem c6_strategy_update_restarts_witness :
    (updateFolderHandler periodicState
        { commitStrategy := some CommitStrategy.onSave }).watcherOptions
      = some (watcherOptionsFor (applyFolderUpdates periodicState.folder
          { commitStrategy := some CommitStrategy.onSave })) ∧
    (updateFolderHandler periodicState
        { periodicInterval := some 10 }).watcherOptions
      = periodicState.watcherOptions := by
  have h := c6_strategy_update_restarts periodicState
    { commitStrategy := some CommitStrategy.onSave } (by decide) (by rfl)
  exact ⟨h.1, h.2 { periodicInterval := some 10 } rfl⟩
/-- The default store location: the dot-git directory inside the
watched folder. -/
def defaultGitPath (f : FolderConfig) : String := f.path ++ "/.git"

/-- The store location the configuration currently points at:
customGitPath when set, otherwise the default. -/
def resolveGitPath (f : FolderConfig) : String :=
  f.customGitPath.getD (defaultGitPath f)

/-- The timestamped name a store is renamed aside to. -/
def backupName (loc : String) (now : Nat) : String :=
  loc ++ "-backup-" ++ toString now

/-- Whether a store exists at a location. -/
def existsAt (stores : StoreFS) (loc : String) : Bool := (stores loc).isSome

/-- renameSync of a store directory. -/
def renameStore (stores : StoreFS) (src dst : String) : StoreFS :=
  fun loc => if loc = dst then stores src
             else if loc = src then none
             else stores loc

/-- The date of the most recent commit of the store at a location (none
when the store is absent or has no commits, as the log call then
reports nothing). -/
def lastCommitAt (stores : StoreFS) (loc : String) : Option Nat :=
  match stores loc with
  | none => none
  | some sd => sd.commits.head?

/-- The configuration update at the end of a migration: clear the
custom location when moving to the default, else record it. -/
def setCustomGitPath (st : MainState) (newGitPath : String) : MainState :=
  let cp : Option String :=
    if newGitPath = defaultGitPath st.folder then none else some newGitPath
  { st with folder := { st.folder with customGitPath := cp } }

/-- The result of the migrate-git-repository IPC call. -/
inductive MigrateResult
  | success
  | failure (msg : String)
deriving DecidableEq, Repr

/-- The decision of the conflict branch: replace the target when it
has no commits, keep it when the source has none, otherwise replace
exactly when the source commit is strictly newer. -/
def shouldReplaceTarget (newLast oldLast : Option Nat) : Bool :=
  match newLast, oldLast with
  | none, _ => true
  | some _, none => false
  | some tNew, some tOld => decide (tNew < tOld)

/-- The conflict branch of the migration handler: compare the most
recent commit date of each store; the source wins when the target has
no commits or the source commit is strictly newer, and the loser is
renamed aside to a timestamped backup. -/
def resolveConflict (st : MainState) (oldGitPath newGitPath : String) : MainState :=
  let oldLast := lastCommitAt st.stores oldGitPath
  let newLast := lastCommitAt st.stores newGitPath
  if shouldReplaceTarget newLast oldLast then
    let movedAside := renameStore st.stores newGitPath (backupName newGitPath st.now)
    { st with stores := renameStore movedAside oldGitPath newGitPath }
  else
    { st with stores := renameStore st.stores oldGitPath (backupName oldGitPath st.now) }

/-- The move step of the migration handler once the source store is
known to exist: conflict resolution when the target location is
occupied, otherwise a plain rename. -/
def migrateMove (st : MainState) (oldGitPath newGitPath : String) : MainState :=
  if existsAt st.stores newGitPath then resolveConflict st oldGitPath newGitPath
  else { st with stores := renameStore st.stores oldGitPath newGitPath }

/-- The migrate-git-repository IPC handler: stop watching; no-op when
the configured location already equals the requested one; when the
source store is missing, either adopt an already-present target store
(config fix only) or fail; otherwise move the store (with conflict
resolution), update the configuration, verify the relocated store is
readable, and restart watching. -/
def migrateHandler (st0 : MainState) (newGitPath : String) : MigrateResult × MainState :=
  let st := stopWatchingFolder st0
  let oldGitPath := resolveGitPath st.folder
  if oldGitPath = newGitPath then
    (.success, startWatchingFolder st)
  else if ¬ existsAt st.stores oldGitPath then
    (if existsAt st.stores newGitPath then
      (.success, startWatchingFolder (setCustomGitPath st newGitPath))
    else
      (.failure ("No Git repository found at " ++ oldGitPath),
        startWatchingFolder st))
  else
    let st2 := setCustomGitPath (migrateMove st oldGitPath newGitPath) newGitPath
    if existsAt st2.stores newGitPath then (.success, startWatchingFolder st2)
    else (.failure "Migration completed but Git repository is not accessible", st2)

theorem folder_startWatching (s : MainState) :
    (startWatchingFolder s).folder.customGitPath = s.folder.customGitPath ∧
    (startWatchingFolder s).folder.path = s.folder.path := by
  unfold startWatchingFolder
  split <;> exact ⟨rfl, rfl⟩

theorem resolve_startWatching (s : MainState) :
    resolveGitPath (startWatchingFolder s).folder = resolveGitPath s.folder := by
  unfold resolveGitPath defaultGitPath
  rw [(folder_startWatching s).1, (folder_startWatching s).2]

theorem resolve_stopWatching (s : MainState) :
    resolveGitPath (stopWatchingFolder s).folder = resolveGitPath s.folder := rfl

theorem stores_startWatching (s : MainState) :
    (startWatchingFolder s).stores = s.stores := by
  unfold startWatchingFolder
  split <;> rfl

theorem stores_stopWatching (s : MainState) :
    (stopWatchingFolder s).stores = s.stores := rfl

theorem resolve_setCustom (s : MainState) (x : String) :
    resolveGitPath (setCustomGitPath s x).folder = x := by
  unfold setCustomGitPath resolveGitPath defaultGitPath
  by_cases hx : x = s.folder.path ++ "/.git" <;> simp [hx]

/-- A successful migration leaves the configuration pointing at the
requested location. -/
theorem migrate_success_resolve (st : MainState) (X : String)
    (h : (migrateHandler st X).1 = .success) :
    resolveGitPath (migrateHandler st X).2.folder = X := by
  unfold migrateHandler at h ⊢
  dsimp only at h ⊢
  split_ifs at h ⊢ with h1 h2 h3 h4 <;>
    simp_all [resolve_startWatching, resolve_stopWatching, resolve_setCustom]

theorem resolveConflict_srcWins (s : MainState) (old X : String)
    (src dst : StoreData)
    (hsrc : s.stores old = some src) (hdst : s.stores X = some dst)
    (hne : old ≠ X) (hb1 : backupName X s.now ≠ X)
    (hb2 : backupName X s.now ≠ old)
    (hwin : dst.commits.head? = none ∨
      ∃ tS tD, src.commits.head? = some tS ∧ dst.commits.head? = some tD ∧ tD < tS) :
    (resolveConflict s old X).stores X = some src ∧
    (resolveConflict s old X).stores (backupName X s.now) = some dst := by
  have hlold : lastCommitAt s.stores old = src.commits.head? := by
    simp [lastCommitAt, hsrc]
  have hlX : lastCommitAt s.stores X = dst.commits.head? := by
    simp [lastCommitAt, hdst]
  have hrep : shouldReplaceTarget dst.commits.head? src.commits.head? = true := by
    rcases hwin with hnone | ⟨tS, tD, hS, hD, hlt⟩
    · rw [hnone]
      rfl
    · rw [hS, hD]
      simpa [shouldReplaceTarget] using hlt
  unfold resolveConflict
  dsimp only
  rw [hlold, hlX, hrep, if_pos rfl]
  constructor
  · simp [renameStore, hne, Ne.symm hb2, hsrc]
  · simp [renameStore, hb1, hb2, hdst]

theorem resolveConflict_dstWins (s : MainState) (old X : String)
    (src dst : StoreData)
    (hsrc : s.stores old = some src) (hdst : s.stores X = some dst)
    (hne : old ≠ X) (hb3 : backupName old s.now ≠ X)
    (hwin : ∃ tD, dst.commits.head? = some tD ∧
      (src.commits.head? = none ∨
        ∃ tS, src.commits.head? = some tS ∧ tS ≤ tD)) :
    (resolveConflict s old X).stores X = some dst ∧
    (resolveConflict s old X).stores (backupName old s.now) = some src := by
  have hlold : lastCommitAt s.stores old = src.commits.head? := by
    simp [lastCommitAt, hsrc]
  have hlX : lastCommitAt s.stores X = dst.commits.head? := by
    simp [lastCommitAt, hdst]
  have hrep : shouldReplaceTarget dst.commits.head? src.commits.head? = false := by
    obtain ⟨tD, hD, hrest⟩ := hwin
    rw [hD]
    rcases hrest with hnone | ⟨tS, hS, hle⟩
    · rw [hnone]
      rfl
    · rw [hS]
      simpa [shouldReplaceTarget] using not_lt.mpr hle
  unfold resolveConflict
  dsimp only
  rw [hlold, hlX, hrep, if_neg Bool.false_ne_true]
  constructor
  · simp [renameStore, Ne.symm hne, Ne.symm hb3, hdst]
  · simp [renameStore, hsrc]

/-- C5: relocating onto an occupied destination.  When the destination
store has no commits, or the most recent source commit is strictly
newer than the most recent destination commit, the destination is
renamed aside to its timestamped backup and the source store ends up at
the destination; otherwise — including when the source store has no
commits — the source is renamed aside to its timestamped backup and
the destination store stays in place.  Either way the call succeeds. -/
theorem c5_relocation_conflict_resolution (st : MainState) (X : String)
    (src dst : StoreData)
    (hne : resolveGitPath st.folder ≠ X)
    (hsrc : st.stores (resolveGitPath st.folder) = some src)
    (hdst : st.stores X = some dst)
    (hb1 : backupName X st.now ≠ X)
    (hb2 : backupName X st.now ≠ resolveGitPath st.folder)
    (hb3 : backupName (resolveGitPath st.folder) st.now ≠ X) :
    ((dst.commits.head? = none ∨
        ∃ tS tD, src.commits.head? = some tS ∧ dst.commits.head? = some tD ∧ tD < tS) →
      (migrateHandler st X).1 = .success ∧
      (migrateHandler st X).2.stores X = some src ∧
      (migrateHandler st X).2.stores (backupName X st.now) = some dst) ∧
    ((∃ tD, dst.commits.head? = some tD ∧
        (src.commits.head? = none ∨
          ∃ tS, src.commits.head? = some tS ∧ tS ≤ tD)) →
      (migrateHandler st X).1 = .success ∧
      (migrateHandler st X).2.stores X = some dst ∧
      (migrateHandler st X).2.stores (backupName (resolveGitPath st.folder) st.now)
        = some src) := by
  have hex : existsAt (stopWatchingFolder st).stores
      (resolveGitPath (stopWatchingFolder st).folder) = true := by
    show existsAt st.stores (resolveGitPath st.folder) = true
    simp [existsAt, hsrc]
  have hexX : existsAt (stopWatchingFolder st).stores X = true := by
    show existsAt st.stores X = true
    simp [existsAt, hdst]
  have hne' : ¬ resolveGitPath (stopWatchingFolder st).folder = X := hne
  have hmove : migrateMove (stopWatchingFolder st)
        (resolveGitPath (stopWatchingFolder st).folder) X
      = resolveConflict (stopWatchingFolder st)
        (resolveGitPath (stopWatchingFolder st).folder) X := by
    unfold migrateMove
    rw [if_pos hexX]
  constructor
  · intro hwin
    obtain ⟨hX, hbkp⟩ := resolveConflict_srcWins (stopWatchingFolder st)
      (resolveGitPath (stopWatchingFolder st).folder) X src dst hsrc hdst hne hb1 hb2 hwin
    have hver : existsAt (setCustomGitPath (migrateMove (stopWatchingFolder st)
        (resolveGitPath (stopWatchingFolder st).folder) X) X).stores X = true := by
      rw [hmove]
      show existsAt (resolveConflict (stopWatchingFolder st)
        (resolveGitPath (stopWatchingFolder st).folder) X).stores X = true
      simp [existsAt, hX]
    have hres : migrateHandler st X = (.success,
        startWatchingFolder (setCustomGitPath (migrateMove (stopWatchingFolder st)
          (resolveGitPath (stopWatchingFolder st).folder) X) X)) := by
      unfold migrateHandler
      dsimp only
      rw [if_neg hne', if_neg (not_not_intro hex), if_pos hver]
    rw [hres]
    refine ⟨rfl, ?_, ?_⟩
    · rw [stores_startWatching]
      show (migrateMove (stopWatchingFolder st)
        (resolveGitPath (stopWatchingFolder st).folder) X).stores X = some src
      rw [hmove]
      exact hX
    · rw [stores_startWatching]
      show (migrateMove (stopWatchingFolder st)
          (resolveGitPath (stopWatchingFolder st).folder) X).stores
        (backupName X st.now) = some dst
      rw [hmove]
      exact hbkp
  · intro hwin
    obtain ⟨hX, hbkp⟩ := resolveConflict_dstWins (stopWatchingFolder st)
      (resolveGitPath (stopWatchingFolder st).folder) X src dst hsrc hdst hne hb3 hwin
    have hver : existsAt (setCustomGitPath (migrateMove (stopWatchingFolder st)
        (resolveGitPath (stopWatchingFolder st).folder) X) X).stores X = true := by
      rw [hmove]
      show existsAt (resolveConflict (stopWatchingFolder st)
        (resolveGitPath (stopWatchingFolder st).folder) X).stores X = true
      simp [existsAt, hX]
    have hres : migrateHandler st X = (.success,
        startWatchingFolder (setCustomGitPath (migrateMove (stopWatchingFolder st)
          (resolveGitPath (stopWatchingFolder st).folder) X) X)) := by
      unfold migrateHandler
      dsimp only
      rw [if_neg hne', if_neg (not_not_intro hex), if_pos hver]
    rw [hres]
    refine ⟨rfl, ?_, ?_⟩
    · rw [stores_startWatching]
      show (migrateMove (stopWatchingFolder st)
        (resolveGitPath (stopWatchingFolder st).folder) X).stores X = some dst
      rw [hmove]
      exact hX
    · rw [stores_startWatching]
      show (migrateMove (stopWatchingFolder st)
          (resolveGitPath (stopWatchingFolder st).folder) X).stores
        (backupName (resolveGitPath st.folder) st.now) = some src
      rw [hmove]
      exact hbkp

/-- The folder of the relocation scenarios: store configured at the
custom location /old. -/
def relocFolder : FolderConfig :=
  { id := "folder-1", path := "/w", name := "w",
    commitStrategy := .onSave, periodicInterval := none,
    ignorePatterns := [], isActive := true, watchSubfolders := true,
    customGitPath := some "/old" }

/-- The C5 scenario: a store with last commit at time 5 at /old, and a
pre-existing store with last commit at time 3 at the target /new. -/
def conflictState : MainState :=
  { folder := relocFolder
    stores := fun loc =>
      if loc = "/old" then some { commits := [5] }
      else if loc = "/new" then some { commits := [3] } else none
    watcherOptions := none
    now := 7 }

/-- Witness for C5: the source (last commit 5) is strictly newer than
the pre-existing target (last commit 3), so after relocation the target
holds the source store and the old target survives as the timestamped
backup. -/
theorem c5_relocation_conflict_resolution_witness :
    (migrateHandler conflictState "/new").1 = .success ∧
    (migrateHandler conflictState "/new").2.stores "/new" = some { commits := [5] } ∧
    (migrateHandler conflictState "/new").2.stores (backupName "/new" 7)
      = some { commits := [3] } := by
  have h := c5_relocation_conflict_resolution conflictState "/new"
    { commits := [5] } { commits := [3] } (by decide) (by decide) (by decide)
    (by decide) (by decide) (by decide)
  exact h.1 (Or.inr ⟨5, 3, rfl, rfl, by decide⟩)

/-- C8: relocating twice to the same location is idempotent.  After a
successful relocation that left a store at the target, the
configuration points at the target, so the second call finds the
configured location equal to the requested one, succeeds, leaves the
on-disk stores exactly as they were (the store at the target included,
with its commits), and restarts the watcher. -/
theorem c8_relocation_idempotent (st : MainState) (X : String)
    (h1 : (migrateHandler st X).1 = .success)
    (h2 : ((migrateHandler st X).2.stores X).isSome = true) :
    resolveGitPath (migrateHandler st X).2.folder = X ∧
    (migrateHandler (migrateHandler st X).2 X).1 = .success ∧
    (migrateHandler (migrateHandler st X).2 X).2.stores
      = (migrateHandler st X).2.stores ∧
    ((migrateHandler (migrateHandler st X).2 X).2.stores X).isSome = true ∧
    ((migrateHandler (migrateHandler st X).2 X).2.watcherOptions).isSome = true := by
  have hres := migrate_success_resolve st X h1
  set st1 := (migrateHandler st X).2 with hst1
  have hcond : resolveGitPath (stopWatchingFolder st1).folder = X := hres
  have hcall : migrateHandler st1 X
      = (.success, startWatchingFolder (stopWatchingFolder st1)) := by
    unfold migrateHandler
    dsimp only
    rw [if_pos hcond]
  refine ⟨hres, ?_, ?_, ?_, ?_⟩
  · rw [hcall]
  · rw [hcall, stores_startWatching, stores_stopWatching]
  · rw [hcall, stores_startWatching, stores_stopWatching]
    exact h2
  · rw [hcall]
    simp [startWatchingFolder, stopWatchingFolder]

/-- The C8 scenario: a store with one commit at the configured source
/old and an empty target. -/
def relocState : MainState :=
  { folder := relocFolder
    stores := fun loc => if loc = "/old" then some { commits := [4] } else none
    watcherOptions := none
    now := 9 }

/-- Witness for C8: after the first relocation to /new succeeds, the
second relocation to /new finds the configuration already there, is a
no-op on the stores, succeeds and restarts the watcher. -/
theorem c8_relocation_idempotent_witness :
    resolveGitPath (migrateHandler relocState "/new").2.folder = "/new" ∧
    (migrateHandler (migrateHandler relocState "/new").2 "/new").1 = .success ∧
    (migrateHandler (migrateHandler relocState "/new").2 "/new").2.stores
      = (migrateHandler relocState "/new").2.stores ∧
    ((migrateHandler (migrateHandler relocState "/new").2 "/new").2.stores "/new").isSome
      = true ∧
    ((migrateHandler (migrateHandler relocState "/new").2 "/new").2.watcherOptions).isSome
      = true :=
  c8_relocation_idempotent relocState "/new" (by decide) (by decide)
